import Mathlib

/-!
# Verification of the crash-diagnostics subsystem (`src/os/pl-cstack.c`)

This file shallowly embeds the trace-store ring buffer, slot reservation,
capture, query/report operations and the crash-handler event sequence of
`pl-cstack.c`, and proves the specification's testable properties about them.

The C file selects one of several stack-walker variants at build time.  We
embed the glibc/execinfo variant (the one carrying most operations), the
libunwind variant where its behaviour differs (label lookup, capture depth),
the dbghelp walker's depth loop, and the no-walker fallback crash handler.

External collaborators (the actual stack unwinder, `dladdr`/`addr2line`
symbol resolution, the Prolog-level printer, `run_on_halt`) are modelled as
inputs or as opaque events: the walker's raw output is a parameter, and
rendering shows the recorded label and raw addresses.  C `int` is modelled
as `Int`, with `Int.tmod` for C's truncating `%`.
-/

set_option maxRecDepth 10000

namespace PlCstack

/-- Constant `SAVE_TRACES` from pl-cstack.c: the capacity of the ring of traces. -/
def SAVE_TRACES : Nat := 10

/-! ## Glibc / execinfo variant: data model

The C `struct btrace` holds parallel arrays `retaddr[SAVE_TRACES]`,
`why[SAVE_TRACES]`, `sizes[SAVE_TRACES]`.  We bundle one slot's fields:
`why` is the label (`NULL` = never written = `none`), `frames` the saved
return addresses (`retaddr[i]`, whose count is `sizes[i]`).  We assume the
small `malloc(sizeof(void*)*frames)` for the address copy succeeds. -/

structure Slot where
  why : Option String
  frames : List Nat
deriving DecidableEq

/-- A slot of the zero-initialised (`memset(s, 0, sizeof(*s))`) store. -/
def emptySlot : Slot := { why := none, frames := [] }

/-- The glibc-variant `struct btrace`: ring of slots, write cursor
(`current`, a C `int`), and the `shared` flag. -/
structure Btrace where
  dumps : List Slot
  current : Int
  shared : Bool
deriving DecidableEq

/-- The part of the per-thread `PL_local_data` this subsystem touches:
the lazily created `btrace_store` pointer. -/
structure PLLocalData where
  btrace_store : Option Btrace
deriving DecidableEq

/-- A freshly `malloc`ed and zeroed store; `get_trace_store` sets
`shared = TRUE` only on the store it attaches to the thread context. -/
def freshStore (shared : Bool) : Btrace :=
  { dumps := List.replicate SAVE_TRACES emptySlot, current := 0, shared := shared }

/-- Function `get_trace_store(create)`.  `mallocOk` models whether `malloc`
succeeds; `hasLD` models `HAS_LD` (a registered execution context).
With a context, a missing store is allocated regardless of `create`
and attached to the context; without one, `create` yields a private
(non-shared) store that is not attached anywhere. -/
def get_trace_store (mallocOk hasLD create : Bool) (ld : PLLocalData) :
    Option Btrace × PLLocalData :=
  if hasLD then
    match ld.btrace_store with
    | some bt => (some bt, ld)
    | none =>
        if mallocOk then (some (freshStore true), ⟨some (freshStore true)⟩)
        else (none, ld)
  else if create then
    (if mallocOk then some (freshStore false) else none, ld)
  else (none, ld)

/-- Function `next_btrace_id`, the `#else` (no `COMPARE_AND_SWAP`) path:
`current = bt->current++ % SAVE_TRACES; if (bt->current >= SAVE_TRACES)
bt->current %= SAVE_TRACES;`.  Returns (reserved id, new cursor). -/
def next_btrace_id_plain (cur : Int) : Int × Int :=
  let current := cur.tmod (SAVE_TRACES : Int)
  let cur1 := cur + 1
  (current, if cur1 ≥ (SAVE_TRACES : Int) then cur1.tmod (SAVE_TRACES : Int) else cur1)

/-- Function `next_btrace_id`, the `COMPARE_AND_SWAP` path, run without
interleaving (the CAS succeeds on the first iteration): reads `current`,
computes `next = current+1`, wrapping `SAVE_TRACES` to `0`. -/
def next_btrace_id_cas (cur : Int) : Int × Int :=
  (cur, if cur + 1 = (SAVE_TRACES : Int) then 0 else cur + 1)

/-- Glibc-variant `save_backtrace(why)`.  `walker` is the raw result of
`backtrace(array, 100)` before truncation to the 100-entry buffer; the
code then records `sizes[current] = frames`, copies the addresses and
sets `why[current]`.  Capture uses the plain `next_btrace_id` path (the
CAS path computes the same pair on an uncontended in-range cursor, see
`next_btrace_id_advances`). -/
def save_backtrace (mallocOk hasLD : Bool) (why : String) (walker : List Nat)
    (ld : PLLocalData) : Option Btrace × PLLocalData :=
  match get_trace_store mallocOk hasLD true ld with
  | (none, ld') => (none, ld')
  | (some bt, ld') =>
      let r := next_btrace_id_plain bt.current
      let bt' : Btrace :=
        { bt with current := r.2,
                  dumps := bt.dumps.set r.1.toNat
                             { why := some why, frames := walker.take 100 } }
      (some bt', if bt'.shared then ⟨some bt'⟩ else ld')

/-- The lines `print_trace` emits for a written slot: the label banner and
one line per saved address.  Symbol/module enrichment (`dladdr`,
`addr2line`) is an external collaborator; the rendered line carries the
frame index and raw address that identify the recorded frame. -/
def traceLines (w : String) (frames : List Nat) : List String :=
  ("C-stack trace labeled \"" ++ w ++ "\":") ::
    frames.enum.map (fun p => "  [" ++ toString p.1 ++ "] " ++ toString p.2)

/-- Glibc-variant `print_trace(bt, me)`: a slot with a `NULL` label prints
`No stack trace`. -/
def print_trace (bt : Btrace) (me : Nat) : List String :=
  let s := bt.dumps.getD me emptySlot
  match s.why with
  | some w => traceLines w s.frames
  | none => ["No stack trace"]

/-- Function `print_backtrace(last)`: renders the slot `current - last`, adding
`SAVE_TRACES` when negative; with no store prints `No backtrace store?`. -/
def print_backtrace (mallocOk hasLD : Bool) (last : Int) (ld : PLLocalData) :
    List String × PLLocalData :=
  match get_trace_store mallocOk hasLD false ld with
  | (some bt, ld') =>
      let me0 := bt.current - last
      let me := if me0 < 0 then me0 + (SAVE_TRACES : Int) else me0
      (print_trace bt me.toNat, ld')
  | (none, ld') => (["No backtrace store?"], ld')

/-- The glibc-variant `bstore_print_backtrace_named` loop body: starts at
`me = bt->current - 1`, wraps negative indices by `+ SAVE_TRACES`, prints
the first slot whose label matches, and stops with a `No backtrace named`
message when `--me` returns to `bt->current - 1`.  The C loop visits at
most `SAVE_TRACES` slots on an in-range cursor, so fuel `SAVE_TRACES`
reproduces it exactly. -/
def named_scan (bt : Btrace) (why : String) : Nat → Int → List String
  | 0, _ => []
  | f+1, me0 =>
      let me := if me0 < 0 then me0 + (SAVE_TRACES : Int) else me0
      if (bt.dumps.getD me.toNat emptySlot).why = some why then print_trace bt me.toNat
      else if me - 1 = bt.current - 1 then ["No backtrace named " ++ why]
      else named_scan bt why f (me - 1)

/-- Glibc-variant `bstore_print_backtrace_named(bt, why)`; a `NULL` store
prints nothing. -/
def bstore_print_backtrace_named (obt : Option Btrace) (why : String) : List String :=
  match obt with
  | some bt => named_scan bt why SAVE_TRACES (bt.current - 1)
  | none => []

/-- Function `print_backtrace_named(why)`: looks the store up without `create`. -/
def print_backtrace_named (mallocOk hasLD : Bool) (why : String) (ld : PLLocalData) :
    List String × PLLocalData :=
  let g := get_trace_store mallocOk hasLD false ld
  (bstore_print_backtrace_named g.1 why, g.2)

/-- Function `print_c_backtrace(why)`: capture then immediately render by label
(the private-store `btrace_destroy` frees memory, with no modelled state). -/
def print_c_backtrace (mallocOk hasLD : Bool) (why : String) (walker : List Nat)
    (ld : PLLocalData) : List String × PLLocalData :=
  let r := save_backtrace mallocOk hasLD why walker ld
  (bstore_print_backtrace_named r.1 why, r.2)

/-- The debug predicate `c_backtrace_clear/0`: frees the store if present,
nulls the lazy-creation pointer, and always returns `TRUE`. -/
def c_backtrace_clear (_ld : PLLocalData) : Bool × PLLocalData :=
  (true, ⟨none⟩)

/-- The debug predicate `c_backtrace_print/1`: `convOk` models whether
`PL_get_chars` converts the argument to text; on success it prints by
label and returns `TRUE`, otherwise it fails. -/
def c_backtrace_print (convOk mallocOk hasLD : Bool) (s : String) (ld : PLLocalData) :
    Bool × List String × PLLocalData :=
  if convOk then
    let p := print_backtrace_named mallocOk hasLD s ld
    (true, p.1, p.2)
  else (false, [], ld)

/-! ## Derived forms used to state the properties -/

/-- The slot contents recorded for one capture `(why, walker output)`. -/
def mkSlot (c : String × List Nat) : Slot :=
  { why := some c.1, frames := c.2.take 100 }

/-- Run a sequence of captures (label, walker output) on a context. -/
def captureAll (caps : List (String × List Nat)) (ld : PLLocalData) : PLLocalData :=
  caps.foldl (fun l c => (save_backtrace true true c.1 c.2 l).2) ld

/-- Well-formedness of a store: as established by allocation and preserved
by every capture, the ring has `SAVE_TRACES` slots and the cursor is in
range. -/
def WFStore (bt : Btrace) : Prop :=
  bt.dumps.length = SAVE_TRACES ∧ 0 ≤ bt.current ∧ bt.current < (SAVE_TRACES : Int)

instance : DecidablePred WFStore := fun bt => by
  unfold WFStore; infer_instance

/-- Well-formedness of a context: its store, if any, is well-formed. -/
def WFLD (ld : PLLocalData) : Prop :=
  ∀ bt, ld.btrace_store = some bt → WFStore bt

/-! ## C9: slot reservation never corrupts the cursor -/

lemma next_plain_eq (c : Int) (h0 : 0 ≤ c) (h1 : c < 10) :
    next_btrace_id_plain c = (c, (c + 1) % 10) := by
  have ht1 : Int.tmod c 10 = c % 10 := Int.tmod_eq_emod h0 (by norm_num)
  have ht2 : Int.tmod (c + 1) 10 = (c + 1) % 10 := Int.tmod_eq_emod (by omega) (by norm_num)
  have hS : ((SAVE_TRACES : Nat) : Int) = 10 := rfl
  simp only [next_btrace_id_plain, hS, ht1, ht2, Prod.mk.injEq]
  refine ⟨by omega, ?_⟩
  split <;> omega

lemma next_cas_eq (c : Int) (h0 : 0 ≤ c) (h1 : c < 10) :
    next_btrace_id_cas c = (c, (c + 1) % 10) := by
  have hS : ((SAVE_TRACES : Nat) : Int) = 10 := rfl
  simp only [next_btrace_id_cas, hS, Prod.mk.injEq]
  refine ⟨by trivial, ?_⟩
  split <;> omega

/-- C9: for both the compare-and-swap path and the plain fallback path of
`next_btrace_id`, a call executed without interleaving on a cursor in
`[0, SAVE_TRACES)` returns that cursor value as the reserved index and
leaves the cursor at `(previous + 1) mod SAVE_TRACES`, again in range. -/
theorem next_btrace_id_advances (c : Int) (h0 : 0 ≤ c) (h1 : c < (SAVE_TRACES : Int)) :
    next_btrace_id_plain c = (c, (c + 1) % (SAVE_TRACES : Int)) ∧
    next_btrace_id_cas c = (c, (c + 1) % (SAVE_TRACES : Int)) ∧
    0 ≤ (c + 1) % (SAVE_TRACES : Int) ∧
    (c + 1) % (SAVE_TRACES : Int) < (SAVE_TRACES : Int) := by
  have hS : ((SAVE_TRACES : Nat) : Int) = 10 := rfl
  rw [hS] at h1 ⊢
  exact ⟨next_plain_eq c h0 h1, next_cas_eq c h0 h1, by omega, by omega⟩

/-- Witness for `next_btrace_id_advances` at the wrap-around cursor 9. -/
theorem next_btrace_id_advances_witness :
    next_btrace_id_plain 9 = (9, 0) ∧ next_btrace_id_cas 9 = (9, 0) := by
  have h := next_btrace_id_advances 9 (by decide) (by decide)
  exact ⟨h.1.trans (by decide), h.2.1.trans (by decide)⟩

/-! ## C8: allocation failure -/

/-- C8: when store allocation fails, `save_backtrace` is a no-op returning
no store, and a most-recent query on a context without a store prints the
`No backtrace store?` fallback message instead of failing. -/
theorem alloc_failure_noop (why : String) (walker : List Nat) (ld : PLLocalData)
    (h : ld.btrace_store = none) :
    save_backtrace false true why walker ld = (none, ld) ∧
    (print_backtrace false true 1 ld).1 = ["No backtrace store?"] := by
  obtain ⟨o⟩ := ld
  simp only at h
  subst h
  exact ⟨rfl, rfl⟩

/-- Witness for `alloc_failure_noop` on a fresh context. -/
theorem alloc_failure_noop_witness :
    save_backtrace false true "gc" [] ⟨none⟩ = (none, ⟨none⟩) ∧
    (print_backtrace false true 1 ⟨none⟩).1 = ["No backtrace store?"] :=
  alloc_failure_noop "gc" [] ⟨none⟩ rfl

/-! ## C7: clear then capture -/

/-- C7: `c_backtrace_clear` always succeeds and resets the lazy-creation
pointer; an immediately following capture re-allocates a fresh store that
contains exactly the one new trace, with the cursor at 1, and that trace
is retrieved by a most-recent-1 query. -/
theorem clear_then_capture (ld : PLLocalData) (why : String) (walker : List Nat) :
    (c_backtrace_clear ld).1 = true ∧
    (c_backtrace_clear ld).2.btrace_store = none ∧
    (save_backtrace true true why walker (c_backtrace_clear ld).2).2.btrace_store =
      some { dumps := mkSlot (why, walker) :: List.replicate 9 emptySlot,
             current := 1, shared := true } ∧
    (print_backtrace true true 1
        (save_backtrace true true why walker (c_backtrace_clear ld).2).2).1 =
      traceLines why (walker.take 100) :=
  ⟨rfl, rfl, rfl, rfl⟩

/-! ## C1: most-recent queries after at most SAVE_TRACES captures -/

/-- Default capture handed to `List.getD` on capture sequences. -/
def capD : String × List Nat := ("", [])

/-- Ring contents after the capture sequence `caps` (oldest first) has
run on a fresh store: slot `j` holds capture `j` for `j < caps.length`,
all other slots are still zeroed. -/
def ringSlots (caps : List (String × List Nat)) (j : Nat) : Slot :=
  if j < caps.length then mkSlot (caps.getD j capD) else emptySlot

/-- The store state reached from a fresh store by the captures `caps`,
for `caps.length ≤ SAVE_TRACES`. -/
def charState (caps : List (String × List Nat)) : Btrace :=
  { dumps := (List.range SAVE_TRACES).map (ringSlots caps),
    current := (caps.length : Int) % (SAVE_TRACES : Int),
    shared := true }

lemma getD_map_range {α : Type} (f : Nat → α) {n k : Nat} (hk : k < n) (d : α) :
    ((List.range n).map f).getD k d = f k := by
  rw [List.getD_eq_getElem?_getD,
      List.getElem?_eq_getElem (by simpa using hk)]
  simp

lemma set_map_range {α : Type} (f : Nat → α) {n k : Nat} (a : α) :
    ((List.range n).map f).set k a =
      (List.range n).map (fun j => if j = k then a else f j) := by
  apply List.ext_getElem
  · simp
  · intro i h1 h2
    simp only [List.getElem_set, List.getElem_map, List.getElem_range]
    by_cases h : k = i
    · simp [h]
    · simp [h, Ne.symm h]

lemma ringSlots_snoc (caps : List (String × List Nat)) (c : String × List Nat) :
    ((List.range SAVE_TRACES).map (ringSlots caps)).set caps.length (mkSlot c) =
      (List.range SAVE_TRACES).map (ringSlots (caps ++ [c])) := by
  rw [set_map_range]
  apply List.map_congr_left
  intro j hj
  rw [List.mem_range] at hj
  by_cases hjn : j = caps.length
  · subst hjn
    have hget : (caps ++ [c]).getD caps.length capD = c := by
      rw [List.getD_eq_getElem?_getD, List.getElem?_append_right (le_refl _)]
      simp
    simp only [ringSlots, List.length_append, List.length_singleton, if_pos rfl]
    simp [hget]
  · simp only [ringSlots, List.length_append, List.length_singleton, if_neg hjn]
    by_cases hlt : j < caps.length
    · rw [if_pos hlt, if_pos (by omega)]
      have : (caps ++ [c]).getD j capD = caps.getD j capD := by
        rw [List.getD_eq_getElem?_getD, List.getD_eq_getElem?_getD,
            List.getElem?_append_left hlt]
      rw [this]
    · rw [if_neg hlt, if_neg (by omega)]

lemma save_step (caps : List (String × List Nat)) (c : String × List Nat)
    (h : caps.length < SAVE_TRACES) :
    (save_backtrace true true c.1 c.2 ⟨some (charState caps)⟩).2 =
      ⟨some (charState (caps ++ [c]))⟩ := by
  have hS : SAVE_TRACES = 10 := rfl
  have hSI : ((SAVE_TRACES : Nat) : Int) = 10 := rfl
  rw [hS] at h
  have hcur : (charState caps).current = (caps.length : Int) := by
    show ((caps.length : Int) % (SAVE_TRACES : Int)) = _
    rw [hSI]
    omega
  have hred : (save_backtrace true true c.1 c.2 ⟨some (charState caps)⟩).2 =
      ⟨some { dumps := (charState caps).dumps.set
                  (next_btrace_id_plain (charState caps).current).1.toNat
                  { why := some c.1, frames := c.2.take 100 },
              current := (next_btrace_id_plain (charState caps).current).2,
              shared := (charState caps).shared }⟩ := rfl
  have hdumps : (charState caps).dumps =
      (List.range SAVE_TRACES).map (ringSlots caps) := rfl
  have hsh : (charState caps).shared = true := rfl
  rw [hred, hcur, next_plain_eq _ (by positivity) (by omega), hdumps, hsh]
  simp only [Int.toNat_natCast]
  congr 1
  congr 1
  show Btrace.mk _ _ _ = Btrace.mk _ _ _
  congr 1
  · exact ringSlots_snoc caps c
  · show _ = ((caps ++ [c]).length : Int) % (SAVE_TRACES : Int)
    rw [hSI]
    simp only [List.length_append, List.length_singleton]
    push_cast
    ring_nf

lemma captureAll_fresh (caps : List (String × List Nat))
    (h : caps.length ≤ SAVE_TRACES) :
    captureAll caps ⟨some (freshStore true)⟩ = ⟨some (charState caps)⟩ := by
  induction caps using List.reverseRecOn with
  | nil =>
      simp only [captureAll, List.foldl_nil]
      have hd : (List.range SAVE_TRACES).map (ringSlots []) =
          List.replicate SAVE_TRACES emptySlot := by
        rw [List.map_congr_left (g := fun _ => emptySlot)
            (by intro a _; simp [ringSlots])]
        simp [List.map_const']
      simp [freshStore, charState, hd]
  | append_singleton caps c ih =>
      rw [List.length_append, List.length_singleton] at h
      have hlen : caps.length ≤ SAVE_TRACES := by omega
      have hlt : caps.length < SAVE_TRACES := by
        have : SAVE_TRACES = 10 := rfl
        omega
      simp only [captureAll, List.foldl_append, List.foldl_cons, List.foldl_nil]
      simp only [captureAll] at ih
      rw [ih hlen]
      exact save_step caps c hlt

lemma captureAll_none (caps : List (String × List Nat)) (hne : caps ≠ [])
    (h : caps.length ≤ SAVE_TRACES) :
    captureAll caps ⟨none⟩ = ⟨some (charState caps)⟩ := by
  obtain ⟨c, rest, rfl⟩ := List.exists_cons_of_ne_nil hne
  have hstep : captureAll (c :: rest) ⟨none⟩ =
      captureAll (c :: rest) ⟨some (freshStore true)⟩ := rfl
  rw [hstep]
  exact captureAll_fresh _ h

/-- Reduction of `print_backtrace` on a present store, definitionally. -/
lemma print_backtrace_some (bt : Btrace) (last : Int) :
    (print_backtrace true true last ⟨some bt⟩).1 =
      print_trace bt
        (if bt.current - last < 0 then bt.current - last + (SAVE_TRACES : Int)
         else bt.current - last).toNat := rfl

lemma print_trace_charState (caps : List (String × List Nat)) (k : Nat)
    (hk : k < caps.length) (hlen : caps.length ≤ SAVE_TRACES) :
    print_trace (charState caps) k =
      traceLines (caps.getD k capD).1 ((caps.getD k capD).2.take 100) := by
  have hS : SAVE_TRACES = 10 := rfl
  have hk10 : k < SAVE_TRACES := by omega
  simp only [print_trace, charState]
  rw [getD_map_range _ (by simpa using hk10)]
  simp only [ringSlots, if_pos hk]
  rfl

/-- C1: for every sequence of `N ≤ SAVE_TRACES` captures on one context
and every `1 ≤ i ≤ N`, `print_backtrace i` renders the trace recorded by
the `i`-th most recent capture, the slot being the cursor minus `i`
wrapped modulo `SAVE_TRACES`. -/
theorem print_backtrace_most_recent (caps : List (String × List Nat))
    (h : caps.length ≤ SAVE_TRACES) (i : Nat) (h1 : 1 ≤ i) (h2 : i ≤ caps.length) :
    (print_backtrace true true (i : Int) (captureAll caps ⟨none⟩)).1 =
      traceLines (caps.getD (caps.length - i) capD).1
        ((caps.getD (caps.length - i) capD).2.take 100) := by
  have hS : SAVE_TRACES = 10 := rfl
  have hSI : ((SAVE_TRACES : Nat) : Int) = 10 := rfl
  have hne : caps ≠ [] := by
    intro hc
    subst hc
    simp at h2
    omega
  rw [captureAll_none caps hne h, print_backtrace_some]
  have hcur : (charState caps).current = (caps.length : Int) % 10 := by
    show ((caps.length : Int) % (SAVE_TRACES : Int)) = _
    rw [hSI]
  rw [hcur, hSI]
  have hidx :
      (if (caps.length : Int) % 10 - (i : Int) < 0
        then (caps.length : Int) % 10 - (i : Int) + 10
        else (caps.length : Int) % 10 - (i : Int)).toNat = caps.length - i := by
    split <;> omega
  rw [hidx]
  exact print_trace_charState caps (caps.length - i) (by omega) h

/-- Witness for `print_backtrace_most_recent`: two captures, query the
most recent one. -/
theorem print_backtrace_most_recent_witness :
    (print_backtrace true true ((1 : Nat) : Int)
        (captureAll [("gc", [17]), ("crash", [40, 41])] ⟨none⟩)).1 =
      traceLines "crash" [40, 41] := by
  have hmain := print_backtrace_most_recent [("gc", [17]), ("crash", [40, 41])]
    (by decide) 1 (by decide) (by decide)
  simpa using hmain

/-! ## C2: ring overwrite after more than SAVE_TRACES captures -/

/-- Eleven captures, labeled `L0..L10`, each with a distinguishing frame. -/
def caps11 : List (String × List Nat) :=
  [("L0", [0]), ("L1", [1]), ("L2", [2]), ("L3", [3]), ("L4", [4]), ("L5", [5]),
   ("L6", [6]), ("L7", [7]), ("L8", [8]), ("L9", [9]), ("L10", [10])]

/-- C2 counterexample: the claim says that after `SAVE_TRACES + 1` captures
labeled `L0..L10` the label `L1` is absent from the most recent
`SAVE_TRACES` slots.  In fact capture 10 (`L10`) overwrites slot 0 (`L0`),
so `L1` is still present: the most-recent-10 query renders the `L1` trace. -/
theorem ring_overwrite_L1_present :
    (print_backtrace true true 10 (captureAll caps11 ⟨none⟩)).1 =
      traceLines "L1" [1] := by decide

/-- C2 (amended): after eleven captures labeled `L0..L10`, the store holds
exactly the ten most recent traces `L1..L10` — `L10` is most recent 1 and
`L0` (the oldest) has been overwritten in ring order, so it appears at no
recency offset. -/
theorem ring_overwrite_after_eleven :
    (List.range SAVE_TRACES).map
        (fun k => (print_backtrace true true ((k : Int) + 1) (captureAll caps11 ⟨none⟩)).1) =
      [traceLines "L10" [10], traceLines "L9" [9], traceLines "L8" [8],
       traceLines "L7" [7], traceLines "L6" [6], traceLines "L5" [5],
       traceLines "L4" [4], traceLines "L3" [3], traceLines "L2" [2],
       traceLines "L1" [1]] := by decide

/-! ## C3: label lookup scans backward from the most recent slot -/

/-- The slot visited at step `j` of a backward label scan: cursor minus
one minus `j`, wrapped into the ring. -/
def scanIdx (cur : Int) (j : Nat) : Nat :=
  ((cur - 1 - (j : Int)) % (SAVE_TRACES : Int)).toNat

/-- Does slot `i` carry the label `why`? -/
def matchesWhy (bt : Btrace) (why : String) (i : Nat) : Bool :=
  decide ((bt.dumps.getD i emptySlot).why = some why)

/-- Modelled from the spec: "`print_by_label(label)` scans backward from
the most recent slot, wrapping once, stops at the first slot whose label
textually matches, and reports not found if the scan returns to its start
without a match" — here, the first matching slot in backward scan order. -/
def named_lookup_spec (bt : Btrace) (why : String) : Option Nat :=
  ((List.range SAVE_TRACES).map (scanIdx bt.current)).find? (matchesWhy bt why)

/-- What the glibc variant prints for a given lookup outcome. -/
def lookupLines (bt : Btrace) (why : String) : Option Nat → List String
  | some i => print_trace bt i
  | none => ["No backtrace named " ++ why]

lemma named_scan_eq_find (bt : Btrace) (why : String) (h0 : 0 ≤ bt.current)
    (h1 : bt.current < 10) :
    ∀ (f : Nat), f ≤ 9 → ∀ me0 : Int, -1 ≤ me0 → me0 ≤ 9 →
      me0 % 10 = (bt.current - 1 - (9 - (f : Int))) % 10 →
      named_scan bt why (f + 1) me0 =
        lookupLines bt why
          ((((List.range SAVE_TRACES).map (scanIdx bt.current)).drop (9 - f)).find?
            (matchesWhy bt why)) := by
  have hSI : ((SAVE_TRACES : Nat) : Int) = 10 := rfl
  have hlen : ((List.range SAVE_TRACES).map (scanIdx bt.current)).length = 10 := by
    simp [SAVE_TRACES]
  intro f
  induction f with
  | zero =>
      intro _ me0 hm1 hm2 hme
      have hwrap : (if me0 < 0 then me0 + ((SAVE_TRACES : Nat) : Int) else me0) =
          bt.current := by
        rw [hSI]
        split <;> omega
      have hscan9 : scanIdx bt.current 9 = bt.current.toNat := by
        unfold scanIdx
        rw [hSI]
        omega
      have h9 : (9 : Nat) < ((List.range SAVE_TRACES).map (scanIdx bt.current)).length := by
        omega
      have hdrop : ((List.range SAVE_TRACES).map (scanIdx bt.current)).drop (9 - 0) =
          [scanIdx bt.current 9] := by
        rw [show (9 - 0 : Nat) = 9 from rfl, List.drop_eq_getElem_cons h9,
            List.drop_eq_nil_of_le (by omega)]
        simp
      simp only [named_scan]
      rw [hwrap, hdrop]
      by_cases hmatch : (bt.dumps.getD bt.current.toNat emptySlot).why = some why
      · rw [if_pos hmatch,
            List.find?_cons_of_pos _
              (by unfold matchesWhy; rw [hscan9]; exact decide_eq_true hmatch)]
        simp only [lookupLines, hscan9]
      · rw [if_neg hmatch, if_pos rfl,
            List.find?_cons_of_neg _
              (by unfold matchesWhy; rw [hscan9]; simpa using hmatch),
            List.find?_nil]
        rfl
  | succ f ih =>
      intro hf me0 hm1 hm2 hme
      set j : Nat := 9 - (f + 1) with hj
      set m : Int := (bt.current - 1 - (j : Int)) % 10 with hmdef
      have hm0 : 0 ≤ m := Int.emod_nonneg _ (by norm_num)
      have hm10 : m < 10 := Int.emod_lt_of_pos _ (by norm_num)
      have hwrap : (if me0 < 0 then me0 + ((SAVE_TRACES : Nat) : Int) else me0) = m := by
        rw [hSI]
        split <;> omega
      have hscan : scanIdx bt.current j = m.toNat := by
        unfold scanIdx
        rw [hSI, ← hmdef]
      have hjlen : j < ((List.range SAVE_TRACES).map (scanIdx bt.current)).length := by
        omega
      have hj1 : j + 1 = 9 - f := by omega
      have hdrop : ((List.range SAVE_TRACES).map (scanIdx bt.current)).drop j =
          scanIdx bt.current j ::
            ((List.range SAVE_TRACES).map (scanIdx bt.current)).drop (9 - f) := by
        rw [List.drop_eq_getElem_cons hjlen, hj1]
        congr 1
        simp
      simp only [named_scan]
      rw [hwrap, hdrop]
      by_cases hmatch : (bt.dumps.getD m.toNat emptySlot).why = some why
      · rw [if_pos hmatch,
            List.find?_cons_of_pos _
              (by unfold matchesWhy; rw [hscan]; exact decide_eq_true hmatch)]
        simp only [lookupLines, hscan]
      · have hne : ¬(m - 1 = bt.current - 1) := by omega
        rw [if_neg hmatch, if_neg hne,
            List.find?_cons_of_neg _
              (by unfold matchesWhy; rw [hscan]; simpa using hmatch)]
        exact ih (by omega) (m - 1) (by omega) (by omega) (by omega)

lemma bstore_named_eq (bt : Btrace) (why : String) (h0 : 0 ≤ bt.current)
    (h1 : bt.current < 10) :
    bstore_print_backtrace_named (some bt) why =
      lookupLines bt why (named_lookup_spec bt why) := by
  have h := named_scan_eq_find bt why h0 h1 9 (le_refl 9) (bt.current - 1)
    (by omega) (by omega) (by omega)
  have hb : bstore_print_backtrace_named (some bt) why =
      named_scan bt why (9 + 1) (bt.current - 1) := rfl
  rw [hb, h]
  unfold named_lookup_spec
  congr 1

/-- C3: for every well-formed store, `bstore_print_backtrace_named`
scans backward from the slot before the cursor, wrapping at most once,
and prints the first slot whose label compares equal — it refines the
spec-level backward lookup `named_lookup_spec`. -/
theorem named_lookup_refines_spec (bt : Btrace) (why : String)
    (h0 : 0 ≤ bt.current) (h1 : bt.current < (SAVE_TRACES : Int)) :
    bstore_print_backtrace_named (some bt) why =
      lookupLines bt why (named_lookup_spec bt why) :=
  bstore_named_eq bt why h0 h1

/-- The store after captures labeled `gc`, `gc`, `crash`, the two `gc`
captures carrying different frames. -/
def gcStore : Btrace :=
  ((captureAll [("gc", [1]), ("gc", [2]), ("crash", [3])] ⟨none⟩).btrace_store).getD
    (freshStore true)

/-- Witness for `named_lookup_refines_spec` on the `gc`/`gc`/`crash`
store; searching `"gc"` prints the second (most recent) `gc` capture,
the one with frame 2, not the first. -/
theorem named_lookup_refines_spec_witness :
    bstore_print_backtrace_named (some gcStore) "gc" =
      lookupLines gcStore "gc" (named_lookup_spec gcStore "gc") ∧
    bstore_print_backtrace_named (some gcStore) "gc" = traceLines "gc" [2] :=
  ⟨named_lookup_refines_spec gcStore "gc" (by decide) (by decide), by decide⟩

/-! ## Libunwind variant

The libunwind build stores resolved frames (`unw_get_proc_name` output)
inline in fixed `frame_info[MAX_DEPTH]` arrays and has its own copies of
the store operations.  We embed the parts whose behaviour differs from
the glibc variant: the depth-bounded capture loop and the label lookup
(whose loop prints nothing when no label matches). -/

/-- Constant `MAX_DEPTH` of the libunwind and dbghelp variants. -/
def MAX_DEPTH : Nat := 10

/-- A libunwind `frame_info`: resolved function name and offset. -/
structure UnwFrame where
  name : String
  offset : Nat
deriving DecidableEq

/-- A libunwind `btrace_stack` slot: label, frame count, frames. -/
structure UnwSlot where
  name : Option String
  depth : Nat
  frames : List UnwFrame
deriving DecidableEq

/-- A zeroed libunwind slot. -/
def emptyUnwSlot : UnwSlot := { name := none, depth := 0, frames := [] }

/-- The libunwind `struct btrace`. -/
structure UnwStore where
  dumps : List UnwSlot
  current : Int
  shared : Bool
deriving DecidableEq

/-- A freshly zeroed libunwind store attached to a context. -/
def unwFreshStore : UnwStore :=
  { dumps := List.replicate SAVE_TRACES emptyUnwSlot, current := 0, shared := true }

/-- The trace-writing part of the libunwind `save_backtrace`:
`for(depth=0; unw_step(&cursor) > 0 && depth < MAX_DEPTH; depth++)`
resolves each frame; `walker` is the full `unw_step` frame sequence, of
which at most `MAX_DEPTH` frames are stored, with `s->depth` set to the
number stored. -/
def unw_save_trace (why : String) (walker : List UnwFrame) (bt : UnwStore) : UnwStore :=
  let r := next_btrace_id_plain bt.current
  let fr := walker.take MAX_DEPTH
  { bt with current := r.2,
            dumps := bt.dumps.set r.1.toNat
              { name := some why, depth := fr.length, frames := fr } }

/-- The libunwind `print_trace`. -/
def unw_print_trace (bt : UnwStore) (me : Nat) : List String :=
  let s := bt.dumps.getD me emptyUnwSlot
  match s.name with
  | some w => ("C-stack trace labeled \"" ++ w ++ "\":") ::
      (s.frames.take s.depth).enum.map
        (fun p => "  [" ++ toString p.1 ++ "] " ++ p.2.name ++ "+" ++ toString p.2.offset)
  | none => ["No stack trace"]

/-- The libunwind `bstore_print_backtrace_named` loop: identical backward
scan to the glibc variant, but its not-found exit path is a bare `break`
that prints nothing. -/
def unw_named_scan (bt : UnwStore) (why : String) : Nat → Int → List String
  | 0, _ => []
  | f+1, me0 =>
      let me := if me0 < 0 then me0 + (SAVE_TRACES : Int) else me0
      if (bt.dumps.getD me.toNat emptyUnwSlot).name = some why then
        unw_print_trace bt me.toNat
      else if me - 1 = bt.current - 1 then []
      else unw_named_scan bt why f (me - 1)

/-- The libunwind `bstore_print_backtrace_named(bt, why)`. -/
def unw_bstore_print_backtrace_named (obt : Option UnwStore) (why : String) :
    List String :=
  match obt with
  | some bt => unw_named_scan bt why SAVE_TRACES (bt.current - 1)
  | none => []

/-! ## Dbghelp (Windows) variant: the depth-bounded `StackWalk64` loop

`while(depth < MAX_DEPTH && StackWalk64(...))` records one frame per
successful walk step, except that the first `skip` steps (handler frames
when no exception context was supplied) are consumed without recording.
`walker` is the sequence of raw PCs `StackWalk64` would deliver; the
function returns the recorded depth. -/
def win_stack_walk : List Nat → Nat → Nat → Nat
  | [], _, depth => depth
  | _ :: rest, skip, depth =>
      if depth < MAX_DEPTH then
        match skip with
        | s + 1 => win_stack_walk rest s depth
        | 0 => win_stack_walk rest 0 (depth + 1)
      else depth

/-! ## C5: searching for a label never captured -/

lemma unw_named_scan_nil (bt : UnwStore) (why : String)
    (h : ∀ s ∈ bt.dumps, s.name ≠ some why) :
    ∀ f me0, unw_named_scan bt why f me0 = [] := by
  have hm : ∀ (k : Nat), (bt.dumps.getD k emptyUnwSlot).name ≠ some why := by
    intro k
    by_cases hk : k < bt.dumps.length
    · have hmem : bt.dumps.getD k emptyUnwSlot ∈ bt.dumps := by
        rw [List.getD_eq_getElem?_getD, List.getElem?_eq_getElem hk]
        exact List.getElem_mem hk
      exact h _ hmem
    · rw [List.getD_eq_getElem?_getD, List.getElem?_eq_none (by omega)]
      simp [emptyUnwSlot]
  intro f
  induction f with
  | zero => intro me0; rfl
  | succ f ih =>
      intro me0
      simp only [unw_named_scan]
      rw [if_neg (hm _)]
      split <;> first
        | rfl
        | exact ih _
        | (split <;> first | rfl | exact ih _)

lemma glibc_named_missing (bt : Btrace) (why : String) (h0 : 0 ≤ bt.current)
    (h1 : bt.current < 10) (h : ∀ s ∈ bt.dumps, s.why ≠ some why) :
    bstore_print_backtrace_named (some bt) why = ["No backtrace named " ++ why] := by
  have hm : ∀ (k : Nat), (bt.dumps.getD k emptySlot).why ≠ some why := by
    intro k
    by_cases hk : k < bt.dumps.length
    · have hmem : bt.dumps.getD k emptySlot ∈ bt.dumps := by
        rw [List.getD_eq_getElem?_getD, List.getElem?_eq_getElem hk]
        exact List.getElem_mem hk
      exact h _ hmem
    · rw [List.getD_eq_getElem?_getD, List.getElem?_eq_none (by omega)]
      simp [emptySlot]
  rw [bstore_named_eq bt why h0 h1]
  have hfind : named_lookup_spec bt why = none := by
    unfold named_lookup_spec
    rw [List.find?_eq_none]
    intro x _
    unfold matchesWhy
    simpa using hm x
  rw [hfind]
  rfl

/-- The glibc-variant store after a single capture labeled `boot`. -/
def gStoreEx : Btrace :=
  ((captureAll [("boot", [12])] ⟨none⟩).btrace_store).getD (freshStore true)

/-- The libunwind-variant store after a single capture labeled `boot`. -/
def unwStoreEx : UnwStore :=
  unw_save_trace "boot" [{ name := "main", offset := 12 }] unwFreshStore

/-- C5 counterexample: the claim says every stack-walker variant reports
a not-found message for a label that was never captured.  The libunwind
variant's lookup loop prints nothing at all in that case (its not-found
exit is a bare `break`), unlike the glibc variant. -/
theorem unw_named_no_message :
    unw_bstore_print_backtrace_named (some unwStoreEx) "gc" = [] ∧
    bstore_print_backtrace_named (some gStoreEx) "gc" =
      ["No backtrace named gc"] := by decide

/-- C5 (amended): searching for a label never captured always terminates
without raising an error and the debug predicate succeeds whenever its
argument converts to text; the glibc variant reports a
`No backtrace named` message to the diagnostic sink, while the libunwind
variant prints nothing at all. -/
theorem named_lookup_missing_label (bt : Btrace) (ubt : UnwStore) (why : String)
    (ld : PLLocalData) (h0 : 0 ≤ bt.current) (h1 : bt.current < (SAVE_TRACES : Int))
    (hmiss : ∀ s ∈ bt.dumps, s.why ≠ some why)
    (humiss : ∀ s ∈ ubt.dumps, s.name ≠ some why) :
    bstore_print_backtrace_named (some bt) why = ["No backtrace named " ++ why] ∧
    unw_bstore_print_backtrace_named (some ubt) why = [] ∧
    (c_backtrace_print true true true why ld).1 = true :=
  ⟨glibc_named_missing bt why h0 h1 hmiss,
   unw_named_scan_nil ubt why humiss _ _, rfl⟩

/-- Witness for `named_lookup_missing_label` on the two one-capture
stores, searching the never-captured label `gc`. -/
theorem named_lookup_missing_label_witness :
    bstore_print_backtrace_named (some gStoreEx) "gc" =
      ["No backtrace named " ++ "gc"] ∧
    unw_bstore_print_backtrace_named (some unwStoreEx) "gc" = [] ∧
    (c_backtrace_print true true true "gc" ⟨none⟩).1 = true :=
  named_lookup_missing_label gStoreEx unwStoreEx "gc" ⟨none⟩
    (by decide) (by decide) (by decide) (by decide)

/-! ## C6: recorded trace depth bounds -/

lemma win_stack_walk_le : ∀ (walker : List Nat) (skip depth : Nat),
    depth ≤ MAX_DEPTH → win_stack_walk walker skip depth ≤ MAX_DEPTH := by
  intro walker
  induction walker with
  | nil => intro skip depth h; exact h
  | cons a rest ih =>
      intro skip depth h
      simp only [win_stack_walk]
      split
      · next hd =>
          cases skip with
          | zero => exact ih 0 (depth + 1) (by omega)
          | succ s => exact ih s depth h
      · exact h

/-- C6 counterexample: the glibc variant records up to 100 frames per
trace (`void *array[100]`), not `MAX_DEPTH`: a capture whose walker
yields 11 frames stores a completed trace of size 11 > 10. -/
theorem glibc_depth_exceeds_ten :
    (((save_backtrace true true "gc" (List.range 11) ⟨none⟩).2.btrace_store.getD
        (freshStore true)).dumps.getD 0 emptySlot).frames.length = 11 ∧
    MAX_DEPTH < 11 := by decide

/-- C6 (amended): the libunwind and dbghelp stack walkers bound every
recorded trace by `MAX_DEPTH` = 10 frames; the glibc/execinfo variant
bounds a recorded trace only by its 100-entry address buffer, so its
stored size may exceed 10 but never 100. -/
theorem capture_depth_bounds (why : String) (uw : List UnwFrame) (ubt : UnwStore)
    (hub : ∀ s ∈ ubt.dumps, s.depth ≤ MAX_DEPTH)
    (ww : List Nat) (skip : Nat) (gw : List Nat) (ld : PLLocalData)
    (hgb : ∀ bt s, ld.btrace_store = some bt → s ∈ bt.dumps → s.frames.length ≤ 100) :
    (∀ s ∈ (unw_save_trace why uw ubt).dumps, s.depth ≤ MAX_DEPTH) ∧
    win_stack_walk ww skip 0 ≤ MAX_DEPTH ∧
    (∀ bt s, (save_backtrace true true why gw ld).2.btrace_store = some bt →
       s ∈ bt.dumps → s.frames.length ≤ 100) := by
  refine ⟨?_, win_stack_walk_le ww skip 0 (Nat.zero_le _), ?_⟩
  · intro s hs
    simp only [unw_save_trace] at hs
    rcases List.mem_or_eq_of_mem_set hs with hmem | heq
    · exact hub s hmem
    · subst heq
      simp only [List.length_take]
      exact Nat.min_le_left _ _
  · intro bt s hbt hs
    obtain ⟨o⟩ := ld
    cases o with
    | none =>
        have hred : (save_backtrace true true why gw (⟨none⟩ : PLLocalData)).2 =
            ⟨some { dumps := (List.replicate SAVE_TRACES emptySlot).set 0
                      { why := some why, frames := gw.take 100 },
                    current := 1, shared := true }⟩ := rfl
        rw [hred] at hbt
        have hX : bt = { dumps := (List.replicate SAVE_TRACES emptySlot).set 0
                          { why := some why, frames := gw.take 100 },
                         current := 1, shared := true } := by
          have := hbt
          simp only [Option.some.injEq] at this
          exact this.symm
        subst hX
        rcases List.mem_or_eq_of_mem_set hs with hmem | heq
        · have := List.eq_of_mem_replicate hmem
          subst this
          simp [emptySlot]
        · subst heq
          simp only [List.length_take]
          exact Nat.min_le_left _ _
    | some bt0 =>
        have hred : (save_backtrace true true why gw (⟨some bt0⟩ : PLLocalData)).2 =
            if bt0.shared then
              ⟨some { dumps := bt0.dumps.set (next_btrace_id_plain bt0.current).1.toNat
                        { why := some why, frames := gw.take 100 },
                      current := (next_btrace_id_plain bt0.current).2,
                      shared := bt0.shared }⟩
            else ⟨some bt0⟩ := rfl
        rw [hred] at hbt
        by_cases hsh : bt0.shared = true
        · rw [if_pos hsh] at hbt
          have hX : bt = { dumps := bt0.dumps.set (next_btrace_id_plain bt0.current).1.toNat
                            { why := some why, frames := gw.take 100 },
                           current := (next_btrace_id_plain bt0.current).2,
                           shared := bt0.shared } := by
            have := hbt
            simp only [Option.some.injEq] at this
            exact this.symm
          subst hX
          rcases List.mem_or_eq_of_mem_set hs with hmem | heq
          · exact hgb bt0 s rfl hmem
          · subst heq
            simp only [List.length_take]
            exact Nat.min_le_left _ _
        · rw [if_neg hsh] at hbt
          have hX : bt = bt0 := by
            have := hbt
            simp only [Option.some.injEq] at this
            exact this.symm
          subst hX
          exact hgb bt s rfl hs

/-- Witness for `capture_depth_bounds` on fresh stores and an 11-frame
walker for each variant. -/
theorem capture_depth_bounds_witness :
    (∀ s ∈ (unw_save_trace "gc"
        (List.replicate 11 { name := "f", offset := 1 }) unwFreshStore).dumps,
      s.depth ≤ MAX_DEPTH) ∧
    win_stack_walk (List.range 11) 2 0 ≤ MAX_DEPTH ∧
    (∀ bt s, (save_backtrace true true "gc" (List.range 11)
        (⟨none⟩ : PLLocalData)).2.btrace_store = some bt →
       s ∈ bt.dumps → s.frames.length ≤ 100) :=
  capture_depth_bounds "gc" (List.replicate 11 { name := "f", offset := 1 })
    unwFreshStore (by decide) (List.range 11) 2 (List.range 11) ⟨none⟩
    (by intro bt s hbt; simp at hbt)

/-! ## C4: the crash handler event sequence -/

/-- The externally visible actions of `sigCrashHandler`, in program
order.  `resetDispositions` stands for the block of `signal(.., SIG_DFL)`
calls, `banner` for the `SdprintfX` fault line (thread id, alias,
timestamp, signal number and name are gathered from collaborators),
`prologStack` for the `PL_backtrace` call, and `kill` for the
`kill(pid, sig)` re-delivery. -/
inductive CrashEvent where
  | resetDispositions
  | armAlarm (secs : Nat)
  | banner (sig : Nat)
  | crashTraceLines (lines : List String)
  | prologStack
  | hooksMessage (status : Nat)
  | runHooks (status : Nat)
  | killMessage
  | kill (sig : Nat)
deriving DecidableEq

/-- The shared (`BTRACE_DONE`) `sigCrashHandler`, lines 914-975: reset
dispositions, arm a 10-second alarm, print the banner, capture and print
a `crash`-labeled native trace, print the Prolog stack, run the exit
hooks with status `128 + sig`, and re-deliver the signal. -/
def sigCrashHandler_events (mallocOk hasLD : Bool) (sig : Nat) (walker : List Nat)
    (ld : PLLocalData) : List CrashEvent :=
  let p := print_c_backtrace mallocOk hasLD "crash" walker ld
  [ CrashEvent.resetDispositions, CrashEvent.armAlarm 10, CrashEvent.banner sig,
    CrashEvent.crashTraceLines p.1, CrashEvent.prologStack,
    CrashEvent.hooksMessage (128 + sig), CrashEvent.runHooks (128 + sig),
    CrashEvent.killMessage, CrashEvent.kill sig ]

/-- The no-stack-walker fallback `sigCrashHandler`, lines 1058-1085:
resets only the triggering signal, prints the banner, runs the exit
hooks with the constant status `4`, and re-delivers the signal.  It
prints no native trace. -/
def sigCrashHandler_fallback_events (sig : Nat) : List CrashEvent :=
  [ CrashEvent.resetDispositions, CrashEvent.banner sig,
    CrashEvent.runHooks 4, CrashEvent.kill sig ]

/-- C4 counterexample: the claim requires the exit hooks to run with
status exactly `128 + signal` in every build variant including the
no-stack-walker fallback; the fallback handler for signal 11 runs them
with status 4, not 139, and renders no crash trace. -/
theorem fallback_handler_status_mismatch :
    CrashEvent.runHooks (128 + 11) ∉ sigCrashHandler_fallback_events 11 ∧
    CrashEvent.runHooks 4 ∈ sigCrashHandler_fallback_events 11 ∧
    CrashEvent.crashTraceLines [] ∉ sigCrashHandler_fallback_events 11 := by
  decide

lemma named_scan_first_hit (bt : Btrace) (why : String) (me0 : Int)
    (hmatch : (bt.dumps.getD
        (if me0 < 0 then me0 + ((SAVE_TRACES : Nat) : Int) else me0).toNat
        emptySlot).why = some why) :
    named_scan bt why SAVE_TRACES me0 =
      print_trace bt
        (if me0 < 0 then me0 + ((SAVE_TRACES : Nat) : Int) else me0).toNat := by
  show named_scan bt why (9 + 1) me0 = _
  simp only [named_scan]
  rw [if_pos hmatch]

/-- On a well-formed store, `print_c_backtrace` renders exactly the
trace it has just captured. -/
lemma print_c_backtrace_hit_store (why : String) (frames : List Nat) (bt : Btrace)
    (hwf : WFStore bt) :
    (print_c_backtrace true true why frames ⟨some bt⟩).1 =
      traceLines why (frames.take 100) := by
  have hSI : ((SAVE_TRACES : Nat) : Int) = 10 := rfl
  obtain ⟨hlen, hc0, hc1⟩ := hwf
  have hc1' : bt.current < 10 := by rw [hSI] at hc1; exact hc1
  have hred : (print_c_backtrace true true why frames ⟨some bt⟩).1 =
      bstore_print_backtrace_named
        (some { dumps := bt.dumps.set (next_btrace_id_plain bt.current).1.toNat
                  { why := some why, frames := frames.take 100 },
                current := (next_btrace_id_plain bt.current).2,
                shared := bt.shared }) why := rfl
  rw [hred, next_plain_eq bt.current hc0 hc1']
  have hlen10 : bt.dumps.length = 10 := hlen
  have hcurlt : bt.current.toNat < bt.dumps.length := by omega
  have hget : ∀ d, ((bt.dumps.set bt.current.toNat
      { why := some why, frames := frames.take 100 }).getD bt.current.toNat d) =
      { why := some why, frames := frames.take 100 } := by
    intro d
    rw [List.getD_eq_getElem?_getD, List.getElem?_set_self hcurlt]
    rfl
  have hwrap : (if (bt.current + 1) % 10 - 1 < 0
        then (bt.current + 1) % 10 - 1 + ((SAVE_TRACES : Nat) : Int)
        else (bt.current + 1) % 10 - 1).toNat = bt.current.toNat := by
    rw [hSI]
    split <;> omega
  have hb : bstore_print_backtrace_named
      (some { dumps := bt.dumps.set bt.current.toNat
                { why := some why, frames := frames.take 100 },
              current := (bt.current + 1) % 10,
              shared := bt.shared }) why =
      named_scan { dumps := bt.dumps.set bt.current.toNat
                     { why := some why, frames := frames.take 100 },
                   current := (bt.current + 1) % 10,
                   shared := bt.shared }
        why SAVE_TRACES ((bt.current + 1) % 10 - 1) := rfl
  rw [hb, named_scan_first_hit _ why _ (by rw [hwrap, hget]), hwrap]
  unfold print_trace
  rw [hget]

/-- On a well-formed context, `print_c_backtrace` renders exactly the
trace it has just captured (a missing store is freshly allocated). -/
lemma print_c_backtrace_hit (why : String) (frames : List Nat) (ld : PLLocalData)
    (h : WFLD ld) :
    (print_c_backtrace true true why frames ld).1 = traceLines why (frames.take 100) := by
  obtain ⟨o⟩ := ld
  cases o with
  | none =>
      have hstep : (print_c_backtrace true true why frames ⟨none⟩).1 =
          (print_c_backtrace true true why frames ⟨some (freshStore true)⟩).1 := rfl
      rw [hstep]
      exact print_c_backtrace_hit_store why frames _ (by decide)
  | some bt => exact print_c_backtrace_hit_store why frames bt (h bt rfl)

/-- C4 (amended): on a fatal signal the shared (`BTRACE_DONE`) handler
emits, in order: signal-disposition reset, the 10-second alarm, the
banner, the rendered `crash`-labeled native trace, the Prolog stack,
and the exit hooks with status exactly `128 + sig`, then re-delivers the
signal; the no-stack-walker fallback emits the banner and then runs the
exit hooks with the constant status `4`, rendering no trace. -/
theorem crash_handler_sequence (sig : Nat) (walker : List Nat) (ld : PLLocalData)
    (h : WFLD ld) :
    sigCrashHandler_events true true sig walker ld =
      [ CrashEvent.resetDispositions, CrashEvent.armAlarm 10, CrashEvent.banner sig,
        CrashEvent.crashTraceLines (traceLines "crash" (walker.take 100)),
        CrashEvent.prologStack, CrashEvent.hooksMessage (128 + sig),
        CrashEvent.runHooks (128 + sig), CrashEvent.killMessage,
        CrashEvent.kill sig ] ∧
    sigCrashHandler_fallback_events sig =
      [ CrashEvent.resetDispositions, CrashEvent.banner sig,
        CrashEvent.runHooks 4, CrashEvent.kill sig ] := by
  refine ⟨?_, rfl⟩
  unfold sigCrashHandler_events
  simp only [print_c_backtrace_hit "crash" walker ld h]

/-- Witness for `crash_handler_sequence` at signal 11 on a fresh
context. -/
theorem crash_handler_sequence_witness :
    sigCrashHandler_events true true 11 [7, 8] ⟨none⟩ =
      [ CrashEvent.resetDispositions, CrashEvent.armAlarm 10, CrashEvent.banner 11,
        CrashEvent.crashTraceLines (traceLines "crash" ([7, 8].take 100)),
        CrashEvent.prologStack, CrashEvent.hooksMessage (128 + 11),
        CrashEvent.runHooks (128 + 11), CrashEvent.killMessage,
        CrashEvent.kill 11 ] ∧
    sigCrashHandler_fallback_events 11 =
      [ CrashEvent.resetDispositions, CrashEvent.banner 11,
        CrashEvent.runHooks 4, CrashEvent.kill 11 ] :=
  crash_handler_sequence 11 [7, 8] ⟨none⟩ (by intro bt hbt; simp at hbt)

/-! ## C10: concurrent slot reservation under the CAS path

`next_btrace_id` with `COMPARE_AND_SWAP` loops: read `bt->current` into
`current`, compute `next` (wrapping `SAVE_TRACES` to 0), and retry until
the CAS succeeds.  The CAS itself executes atomically on the shared
cursor, so a concurrent execution linearizes into a sequence of CAS
executions; the value a caller read may be stale by the time its CAS
runs.  `casStep cur expected` is one such atomic CAS execution: it
succeeds (installing the wrapped successor and reserving `expected`)
exactly when the cursor still equals the value read.  `runCAS` runs an
arbitrary linearized sequence of CAS executions, with every attempt's
previously-read value arbitrary, and collects the successfully reserved
indices in order; each caller retries until one success, so `M`
concurrent reservations contribute `M` successes. -/
def casStep (cur expected : Int) : Int × Option Int :=
  if cur = expected then
    (if expected + 1 = (SAVE_TRACES : Int) then 0 else expected + 1, some expected)
  else (cur, none)

/-- Run a linearized sequence of CAS executions; returns the final
cursor and the reserved indices, in linearization order. -/
def runCAS : Int → List Int → Int × List Int
  | cur, [] => (cur, [])
  | cur, e :: rest =>
      let s := casStep cur e
      let r := runCAS s.1 rest
      (r.1, match s.2 with
            | some v => v :: r.2
            | none => r.2)

/-- The cursor trajectory from `c`: the `n` successive ring positions. -/
def traj (c : Int) (n : Nat) : List Int :=
  (List.range n).map (fun (j : Nat) => (c + (j : Int)) % 10)

lemma traj_succ (c : Int) (h0 : 0 ≤ c) (h1 : c < 10) (n : Nat) :
    traj c (n + 1) = c :: traj ((c + 1) % 10) n := by
  apply List.ext_getElem
  · simp [traj]
  · intro i hi1 hi2
    unfold traj
    cases i with
    | zero =>
        simp only [List.getElem_map, List.getElem_range, List.getElem_cons_zero]
        omega
    | succ i =>
        simp only [List.getElem_map, List.getElem_range, List.getElem_cons_succ]
        omega

lemma runCAS_traj : ∀ (attempts : List Int) (c : Int), 0 ≤ c → c < 10 →
    (runCAS c attempts).2 = traj c (runCAS c attempts).2.length := by
  intro attempts
  induction attempts with
  | nil => intro c _ _; rfl
  | cons e rest ih =>
      intro c h0 h1
      by_cases he : c = e
      · subst he
        have hcs : casStep c c =
            (if c + 1 = (SAVE_TRACES : Int) then 0 else c + 1, some c) := by
          unfold casStep
          rw [if_pos rfl]
        have hred : runCAS c (c :: rest) =
            ((runCAS (if c + 1 = (SAVE_TRACES : Int) then 0 else c + 1) rest).1,
             c :: (runCAS (if c + 1 = (SAVE_TRACES : Int) then 0 else c + 1) rest).2) := by
          simp only [runCAS, hcs]
        have hnext : (if c + 1 = (SAVE_TRACES : Int) then 0 else c + 1) =
            (c + 1) % 10 := by
          have hSI : ((SAVE_TRACES : Nat) : Int) = 10 := rfl
          rw [hSI]
          split <;> omega
        rw [hred, hnext]
        have hb0 : 0 ≤ (c + 1) % 10 := Int.emod_nonneg _ (by norm_num)
        have hb1 : (c + 1) % 10 < 10 := Int.emod_lt_of_pos _ (by norm_num)
        show c :: (runCAS ((c + 1) % 10) rest).2 =
          traj c (c :: (runCAS ((c + 1) % 10) rest).2).length
        rw [List.length_cons, traj_succ c h0 h1]
        congr 1
        exact ih ((c + 1) % 10) hb0 hb1
      · have hcs : casStep c e = (c, none) := by
          unfold casStep
          rw [if_neg he]
        have hred : runCAS c (e :: rest) =
            ((runCAS c rest).1, (runCAS c rest).2) := by
          simp only [runCAS, hcs]
        rw [hred]
        exact ih c h0 h1

lemma traj_nodup (c : Int) (n : Nat) (hn : n ≤ 10) :
    (traj c n).Nodup := by
  unfold traj
  refine (List.nodup_range n).map_on ?_
  intro j1 hj1 j2 hj2 heq
  rw [List.mem_range] at hj1 hj2
  omega

/-- C10: under the atomic compare-and-swap reservation path, no two
concurrent callers are assigned the same slot: in every linearized
interleaving of CAS executions with arbitrary (possibly stale) read
values, any set of successful reservations fitting in one un-wrapped
pass of the ring (at most `SAVE_TRACES` of them) consists of pairwise
distinct indices. -/
theorem cas_reservation_distinct (c0 : Int) (attempts : List Int)
    (h0 : 0 ≤ c0) (h1 : c0 < (SAVE_TRACES : Int))
    (hM : (runCAS c0 attempts).2.length ≤ SAVE_TRACES) :
    (runCAS c0 attempts).2.Nodup := by
  have hSI : ((SAVE_TRACES : Nat) : Int) = 10 := rfl
  have h1' : c0 < 10 := by rw [hSI] at h1; exact h1
  rw [runCAS_traj attempts c0 h0 h1']
  exact traj_nodup c0 _ hM

/-- Witness for `cas_reservation_distinct`: six CAS executions from
cursor 7, two of them with stale reads (one failing, one retried to
success), wrapping past slot 9; the five reserved slots are distinct. -/
theorem cas_reservation_distinct_witness :
    (runCAS 7 [7, 0, 8, 9, 0, 1]).2.Nodup :=
  cas_reservation_distinct 7 [7, 0, 8, 9, 0, 1] (by decide) (by decide) (by decide)

end PlCstack
